import Mathlib

/-!
# Verification of the BuildingLink client core pipeline

A shallow embedding of the BuildingLink TypeScript client
(`BuildingLink` class: cookie jar, history/loop detection, redirect
resolution, authentication interceptor, URL resolution) together with
proofs about the embedded definitions.

Conventions of the embedding:
* JavaScript strings are modelled as Lean `String` / `List Char`;
  `String.split(sep)` is modelled by `splitChar` (single-character
  separators only, which is all the source uses).
* JavaScript objects used as string-keyed records (`this.cookies`,
  form data, header bags, query parameters) are modelled as insertion
  ordered association lists; assignment to an existing key overwrites
  the value in place, assignment to a fresh key appends (`setAssoc`).
* The WHATWG `URL` is modelled by `ModelURL` (origin, pathname, raw
  search string); percent/plus-coding of query components is not
  modelled (values are kept raw), fragments are not modelled, and the
  model is exact on inputs free of those features, which covers every
  input considered here.
* `decodeURIComponent` is modelled by `percentDecodeChars`
  (single-byte `%XX` escapes; exact on percent-free strings); theorems
  about cookie capture quantify over an arbitrary decode function
  wherever possible.
* `fetch`-like effects are modelled by passing an oracle function for
  the recursive pipeline invocation, and state is passed explicitly.
-/

namespace BL

/-! ## Generic list/string helpers (JS built-ins used by the source) -/

/-- Model of JS `String.prototype.split` with a one-character separator:
`splitChar c l` splits `l` at every occurrence of `c`; the result is
always non-empty and `"".split(c) = [""]`. -/
def splitChar (sep : Char) : List Char → List (List Char)
  | [] => [[]]
  | c :: t =>
    match splitChar sep t with
    | [] => [[c]]
    | h :: r => if c = sep then [] :: h :: r else (c :: h) :: r

/-- Join a list of character lists with a one-character separator
(inverse of `splitChar`). -/
def joinChar (sep : Char) : List (List Char) → List Char
  | [] => []
  | [x] => x
  | x :: y :: r => x ++ sep :: joinChar sep (y :: r)

theorem splitChar_ne_nil (sep : Char) (l : List Char) : splitChar sep l ≠ [] := by
  cases l with
  | nil => simp [splitChar]
  | cons c t =>
    simp only [splitChar]
    rcases h : splitChar sep t with _ | ⟨h1, r⟩
    · simp
    · simp only []
      split <;> simp

theorem mem_splitChar_not_mem {sep : Char} {l : List Char} :
    ∀ s ∈ splitChar sep l, sep ∉ s := by
  induction l with
  | nil =>
    intro s hs
    simp [splitChar] at hs
    simp [hs]
  | cons c t ih =>
    intro s hs
    simp only [splitChar] at hs
    rcases h : splitChar sep t with _ | ⟨h1, r⟩
    · exact absurd h (splitChar_ne_nil sep t)
    · rw [h] at hs
      have ih1 : sep ∉ h1 := ih h1 (h ▸ List.mem_cons_self _ _)
      by_cases hc : c = sep
      · simp only [if_pos hc, List.mem_cons] at hs
        rcases hs with hs | hs | hs
        · simp [hs]
        · exact hs ▸ ih1
        · exact ih s (h ▸ List.mem_cons_of_mem _ hs)
      · simp only [if_neg hc, List.mem_cons] at hs
        rcases hs with hs | hs
        · subst hs
          intro hmem
          rcases List.mem_cons.mp hmem with h2 | h2
          · exact hc h2.symm
          · exact ih1 h2
        · exact ih s (h ▸ List.mem_cons_of_mem _ hs)

theorem splitChar_of_not_mem {sep : Char} {l : List Char} (h : sep ∉ l) :
    splitChar sep l = [l] := by
  induction l with
  | nil => rfl
  | cons c t ih =>
    have hc : c ≠ sep := fun e => h (e ▸ List.mem_cons_self _ _)
    have ht : sep ∉ t := fun e => h (List.mem_cons_of_mem _ e)
    simp only [splitChar, ih ht, if_neg hc]

theorem splitChar_append {sep : Char} {a : List Char} (b : List Char) (h : sep ∉ a) :
    splitChar sep (a ++ sep :: b) = a :: splitChar sep b := by
  induction a with
  | nil =>
    simp only [List.nil_append, splitChar]
    rcases hb : splitChar sep b with _ | ⟨h1, r⟩
    · exact absurd hb (splitChar_ne_nil sep b)
    · simp
  | cons c t ih =>
    have hc : c ≠ sep := fun e => h (e ▸ List.mem_cons_self _ _)
    have ht : sep ∉ t := fun e => h (List.mem_cons_of_mem _ e)
    simp only [List.cons_append, splitChar, List.append_eq, ih ht, if_neg hc]

theorem joinChar_splitChar (sep : Char) (l : List Char) :
    joinChar sep (splitChar sep l) = l := by
  induction l with
  | nil => rfl
  | cons c t ih =>
    simp only [splitChar]
    rcases h : splitChar sep t with _ | ⟨h1, r⟩
    · exact absurd h (splitChar_ne_nil sep t)
    · rw [h] at ih
      by_cases hc : c = sep
      · subst hc
        simp only [if_pos rfl, joinChar]
        rcases r with _ | ⟨y, r2⟩
        · simp only [joinChar] at ih
          simpa using ih
        · simpa [joinChar] using ih
      · simp only [if_neg hc]
        rcases r with _ | ⟨y, r2⟩
        · simpa [joinChar] using ih
        · simpa [joinChar] using ih

theorem splitChar_joinChar {sep : Char} {segs : List (List Char)}
    (hne : segs ≠ []) (h : ∀ s ∈ segs, sep ∉ s) :
    splitChar sep (joinChar sep segs) = segs := by
  induction segs with
  | nil => exact absurd rfl hne
  | cons x r ih =>
    rcases r with _ | ⟨y, r2⟩
    · simpa [joinChar] using splitChar_of_not_mem (h x (List.mem_cons_self _ _))
    · have hx : sep ∉ x := h x (List.mem_cons_self _ _)
      have hr : ∀ s ∈ y :: r2, sep ∉ s := fun s hs => h s (List.mem_cons_of_mem _ hs)
      simp only [joinChar]
      rw [splitChar_append _ hx, ih (by simp) hr]

/-- JS object property write `obj[k] = v` on a string-keyed record
modelled as an insertion-ordered association list: an existing key is
overwritten in place, a fresh key is appended. -/
def setAssoc {α : Type} [DecidableEq α] {β : Type} (l : List (α × β)) (k : α) (v : β) :
    List (α × β) :=
  if l.any (fun p => p.1 = k) then
    l.map (fun p => if p.1 = k then (k, v) else p)
  else
    l ++ [(k, v)]

/-- JS object property read `obj[k]` (first — and, for `setAssoc`-built
records, only — binding of the key). -/
def getAssoc {α : Type} [DecidableEq α] {β : Type} (l : List (α × β)) (k : α) : Option β :=
  (l.find? (fun p => p.1 = k)).map (fun p => p.2)

theorem getAssoc_setAssoc_self {α : Type} [DecidableEq α] {β : Type}
    (l : List (α × β)) (k : α) (v : β) : getAssoc (setAssoc l k v) k = some v := by
  unfold setAssoc
  split
  · next hany =>
    induction l with
    | nil => simp at hany
    | cons p t ih =>
      by_cases hp : p.1 = k
      · simp [getAssoc, hp]
      · simp only [List.any_cons, decide_eq_true_eq, Bool.or_eq_true] at hany
        rcases hany with h1 | h1
        · exact absurd h1 hp
        · simp only [List.map_cons, if_neg hp]
          simp only [getAssoc, List.find?_cons, decide_eq_false hp]
          exact ih (by simpa using h1)
  · next hany =>
    induction l with
    | nil => simp [getAssoc]
    | cons p t ih =>
      simp only [List.any_cons, Bool.or_eq_true, decide_eq_true_eq] at hany
      push_neg at hany
      simp only [List.cons_append, getAssoc, List.find?_cons, decide_eq_false hany.1]
      exact ih (by simpa using hany.2)

theorem setAssoc_of_not_mem {α : Type} [DecidableEq α] {β : Type}
    {l : List (α × β)} {k : α} (v : β) (h : ∀ p ∈ l, p.1 ≠ k) :
    setAssoc l k v = l ++ [(k, v)] := by
  unfold setAssoc
  rw [if_neg]
  simp only [List.any_eq_true, decide_eq_true_eq, not_exists, not_and]
  exact h

/-- Model of JS `String.prototype.includes` at the character-list level:
`hasSub sub l` is true iff `sub` occurs as a contiguous sublist of `l`. -/
def hasSub (sub : List Char) : List Char → Bool
  | [] => sub.isEmpty
  | c :: rest => sub.isPrefixOf (c :: rest) || hasSub sub rest

/-- Model of JS `String.prototype.includes`. -/
def containsSubstr (s sub : String) : Bool :=
  hasSub sub.data s.data

/-- ASCII whitespace recognized by JS `\s` / `String.prototype.trim`
(the non-ASCII whitespace code points are not modelled; no input
considered here contains them). -/
def isJsSpace (c : Char) : Bool :=
  c = ' ' || c = '\t' || c = '\n' || c = '\r' || c = '\x0b' || c = '\x0c'

/-- Model of JS `String.prototype.trim` on character lists. -/
def jsTrimChars (l : List Char) : List Char :=
  ((l.dropWhile isJsSpace).reverse.dropWhile isJsSpace).reverse

/-- Hexadecimal digit value, as read by `decodeURIComponent`. -/
def hexDigitVal (c : Char) : Option Nat :=
  if '0' ≤ c ∧ c ≤ '9' then some (c.toNat - 48)
  else if 'A' ≤ c ∧ c ≤ 'F' then some (c.toNat - 55)
  else if 'a' ≤ c ∧ c ≤ 'f' then some (c.toNat - 87)
  else none

/-- Model of JS `decodeURIComponent` restricted to single-byte `%XX`
escapes (multi-byte UTF-8 sequences and the `URIError` on malformed
escapes are not modelled; the function is exact — the identity — on
percent-free strings, which covers every concrete input considered
here). -/
def percentDecodeChars : List Char → List Char
  | [] => []
  | '%' :: h1 :: h2 :: rest =>
    match hexDigitVal h1, hexDigitVal h2 with
    | some a, some b => Char.ofNat (16 * a + b) :: percentDecodeChars rest
    | _, _ => '%' :: percentDecodeChars (h1 :: h2 :: rest)
  | c :: rest => c :: percentDecodeChars rest

/-! ## Session state (`BuildingLink` class fields) -/

/-- The fields of the `BuildingLink` class that the interceptors read
and write: `cookies` (string-keyed record), `history`, `token`
(`BuildingLinkToken` is an open string-keyed record), and the
configured credentials from `this.options`. -/
structure ClientState where
  cookies : List (String × String)
  history : List String
  token : Option (List (String × String))
  username : String
  password : String
deriving DecidableEq, Repr

/-- Getter `get isAuthenticated()`: `"bl.auth.cookie.oidc" in this.cookies`. -/
def isAuthenticated (s : ClientState) : Bool :=
  s.cookies.any (fun p => p.1 = "bl.auth.cookie.oidc")

/-! ## Cookie jar -/

/-- One step of `updateCookies`, for one `Set-Cookie` entry `c`:
`const [name, value] = c.split(";")[0].split("=")` followed by
`this.cookies[name.trim()] = decodeURIComponent(value.trim())`.
`decode` abstracts `decodeURIComponent`. The JS destructuring binds
`name`/`value` to the first two elements of the `=`-split (further
parts are dropped); when the split yields fewer than two parts,
`value` is `undefined` and `value.trim()` throws, modelled by `none`. -/
def captureEntry (decode : List Char → List Char)
    (jar : List (String × String)) (c : String) : Option (List (String × String)) :=
  match splitChar '=' ((splitChar ';' c.data).headD []) with
  | n :: v :: _ =>
    some (setAssoc jar (String.mk (jsTrimChars n)) (String.mk (decode (jsTrimChars v))))
  | _ => none

/-- Model of `updateCookies`: fold `captureEntry` over all `Set-Cookie` entries
of a response (`response.headers.getSetCookie().forEach(...)`). -/
def captureAll (decode : List Char → List Char)
    (jar : List (String × String)) : List String → Option (List (String × String))
  | [] => some jar
  | c :: cs =>
    match captureEntry decode jar c with
    | some jar2 => captureAll decode jar2 cs
    | none => none

/-- The `name=value` serialization of the jar used by `addCookies`
(`Object.entries(this.cookies).map(([name, value]) => name+"="+value)`). -/
def cookiePairs (jar : List (String × String)) : List String :=
  jar.map (fun p => p.1 ++ "=" ++ p.2)

/-- Model of the `addCookies` serialization: the cookie pairs joined with `"; "`. -/
def serializeCookies (jar : List (String × String)) : String :=
  String.intercalate "; " (cookiePairs jar)

/-- A request's mutable options (`RequestInit`): method and headers. -/
structure Req where
  method : Option String
  headers : List (String × String)
deriving DecidableEq, Repr

/-- Model of `addCookies(url, request)`: API hosts are exempted; otherwise the
serialized jar is written to the `cookie` header
(`request.headers = { ...request.headers, cookie }`). -/
def addCookies (s : ClientState) (url : String) (req : Req) : Req :=
  if containsSubstr url "users.us1.buildinglink.com" ||
      containsSubstr url "api.buildinglink.com" then
    req
  else
    { req with headers := setAssoc req.headers "cookie" (serializeCookies s.cookies) }

/-! ## History / loop detection -/

/-- Model of JS `String.prototype.toUpperCase` on the ASCII range
(the only range exercised by HTTP method names). -/
def jsToUpper (s : String) : String :=
  String.mk (s.data.map Char.toUpper)

/-- The history entry built by `addHistory`:
`"[" + method.toUpperCase() + "] " + url` with
`const method = request.method || "GET"` (so an absent or empty method
falls back to `"GET"`). -/
def histEntry (url : String) (method : Option String) : String :=
  let m := match method with
    | some mm => if mm = "" then "GET" else mm
    | none => "GET"
  "[" ++ jsToUpper m ++ "] " ++ url

/-- Model of `addHistory(url, request)`: when authenticated, clear the history;
otherwise throw on a repeated entry, else append the entry. -/
def addHistory (s : ClientState) (url : String) (method : Option String) :
    Except String ClientState :=
  if isAuthenticated s then
    Except.ok { s with history := [] }
  else
    let entry := histEntry url method
    if s.history.contains entry then
      Except.error ("Circular redirect detected: " ++ entry)
    else
      Except.ok { s with history := s.history ++ [entry] }

/-! ## Cookie round trip (C1) -/

/-- A cookie name or value that survives the jar's serialization
format: free of the `;` and `=` separators and of leading/trailing
whitespace. -/
def sepFree (s : String) : Prop :=
  ';' ∉ s.data ∧ '=' ∉ s.data ∧ jsTrimChars s.data = s.data

instance (s : String) : Decidable (sepFree s) := by
  unfold sepFree
  infer_instance

theorem data_pair_eq (a b : String) :
    (a ++ "=" ++ b).data = a.data ++ '=' :: b.data := by
  rw [String.data_append, String.data_append]
  simp

theorem captureEntry_pair (decode : List Char → List Char)
    (acc : List (String × String)) {n v : String}
    (hn : sepFree n) (hv : sepFree v) :
    captureEntry decode acc (n ++ "=" ++ v) =
      some (setAssoc acc n (String.mk (decode v.data))) := by
  unfold captureEntry
  rw [data_pair_eq]
  have hsemi : ';' ∉ n.data ++ '=' :: v.data := by
    intro hmem
    rcases List.mem_append.mp hmem with h | h
    · exact hn.1 h
    · rcases List.mem_cons.mp h with h | h
      · exact absurd h (by decide)
      · exact hv.1 h
  rw [splitChar_of_not_mem hsemi]
  simp only [List.headD_cons]
  rw [splitChar_append _ hn.2.1, splitChar_of_not_mem hv.2.1]
  simp only [hn.2.2, hv.2.2]

theorem captureAll_cookiePairs (decode : List Char → List Char) :
    ∀ (jar acc : List (String × String)),
    (jar.map Prod.fst).Nodup →
    (∀ p ∈ jar, sepFree p.1 ∧ sepFree p.2) →
    (∀ p ∈ jar, ∀ q ∈ acc, q.1 ≠ p.1) →
    captureAll decode acc (cookiePairs jar) =
      some (acc ++ jar.map (fun p => (p.1, String.mk (decode p.2.data)))) := by
  intro jar
  induction jar with
  | nil => intro acc _ _ _; simp [cookiePairs, captureAll]
  | cons p t ih =>
    intro acc hnd hgood hdisj
    have hp := hgood p (List.mem_cons_self _ _)
    have hnd1 : p.1 ∉ t.map Prod.fst := (List.nodup_cons.mp (by simpa using hnd)).1
    have hnd2 : (t.map Prod.fst).Nodup := (List.nodup_cons.mp (by simpa using hnd)).2
    have hset : setAssoc acc p.1 (String.mk (decode p.2.data)) =
        acc ++ [(p.1, String.mk (decode p.2.data))] :=
      setAssoc_of_not_mem _ (fun q hq => hdisj p (List.mem_cons_self _ _) q hq)
    have hpair := captureEntry_pair decode acc hp.1 hp.2
    have hdisj2 : ∀ q ∈ t, ∀ r ∈ acc ++ [(p.1, String.mk (decode p.2.data))], r.1 ≠ q.1 := by
      intro q hq r hr
      rcases List.mem_append.mp hr with h | h
      · exact hdisj q (List.mem_cons_of_mem _ hq) r h
      · have hr2 : r = (p.1, String.mk (decode p.2.data)) := by simpa using h
        subst hr2
        intro he
        exact hnd1 (he ▸ List.mem_map_of_mem Prod.fst hq)
    rw [show cookiePairs (p :: t) = (p.1 ++ "=" ++ p.2) :: cookiePairs t from rfl]
    simp only [captureAll, hpair, hset]
    rw [ih _ hnd2 (fun q hq => hgood q (List.mem_cons_of_mem _ hq)) hdisj2]
    simp

/-- C1 (amended): capturing the serialized `name=value` entries of a
cookie mapping reproduces the mapping modulo the value decode step,
*provided* every name and value is free of `;` and `=` and of
leading/trailing whitespace. The decode function is arbitrary, so the
statement holds in particular for `decodeURIComponent`
(`percentDecodeChars`). -/
theorem cookie_roundtrip_of_sepFree (decode : List Char → List Char)
    (jar : List (String × String))
    (hnd : (jar.map Prod.fst).Nodup)
    (hgood : ∀ p ∈ jar, sepFree p.1 ∧ sepFree p.2) :
    captureAll decode [] (cookiePairs jar) =
      some (jar.map (fun p => (p.1, String.mk (decode p.2.data)))) := by
  simpa using captureAll_cookiePairs decode jar [] hnd hgood (by simp)

/-- Witness for `cookie_roundtrip_of_sepFree` at a concrete jar. -/
theorem cookie_roundtrip_of_sepFree_witness :
    captureAll percentDecodeChars []
      (cookiePairs [("sid", "xyz"), ("bl.auth.cookie.oidc", "tok")]) =
      some [("sid", "xyz"), ("bl.auth.cookie.oidc", "tok")] := by
  have h := cookie_roundtrip_of_sepFree percentDecodeChars
    [("sid", "xyz"), ("bl.auth.cookie.oidc", "tok")]
    (by decide) (by decide)
  simpa using h

/-- C1 (counterexample): the claim fails as stated for a value that
itself contains `=`. Serializing the mapping `{a ↦ b=c}` yields the
entry `a=b=c`; `updateCookies` splits that on *every* `=` and keeps
only the first two parts, capturing `{a ↦ b}` rather than
`{a ↦ decodeURIComponent(b=c)} = {a ↦ b=c}`. -/
theorem cookie_roundtrip_counterexample :
    captureAll percentDecodeChars [] (cookiePairs [("a", "b=c")]) = some [("a", "b")]
    ∧ some [("a", "b")] ≠
        some [("a", String.mk (percentDecodeChars (String.data "b=c")))] := by
  constructor
  · decide
  · decide

/-! ## Loop detection (C2) -/

/-- C2: `addHistory` raises the circular-redirect error iff the session
is unauthenticated and the entry is already present; otherwise it
records the entry (or, when authenticated, resets the history), so an
authenticated session never trips loop detection, even for the same
method and URL twice in succession. -/
theorem addHistory_loop_detection (s : ClientState) (url : String) (method : Option String) :
    ((∃ e, addHistory s url method = Except.error e) ↔
      (isAuthenticated s = false ∧ histEntry url method ∈ s.history))
    ∧ (isAuthenticated s = true →
        addHistory s url method = Except.ok { s with history := [] })
    ∧ (isAuthenticated s = false → histEntry url method ∉ s.history →
        addHistory s url method =
          Except.ok { s with history := s.history ++ [histEntry url method] })
    ∧ (isAuthenticated s = true → ∀ u2 m2, ∃ s1,
        addHistory s u2 m2 = Except.ok s1 ∧ ∃ s2, addHistory s1 u2 m2 = Except.ok s2) := by
  refine ⟨?_, ?_, ?_, ?_⟩
  · constructor
    · rintro ⟨e, he⟩
      unfold addHistory at he
      by_cases ha : isAuthenticated s
      · rw [if_pos ha] at he
        cases he
      · by_cases hm : histEntry url method ∈ s.history
        · exact ⟨by simpa using ha, hm⟩
        · rw [if_neg ha, if_neg (by simpa [List.contains, List.elem_iff] using hm)] at he
          cases he
    · rintro ⟨ha, hm⟩
      unfold addHistory
      rw [if_neg (by simp [ha]), if_pos (by simpa [List.contains, List.elem_iff] using hm)]
      exact ⟨_, rfl⟩
  · intro ha
    unfold addHistory
    simp [ha]
  · intro ha hm
    unfold addHistory
    simp only [ha, Bool.false_eq_true, if_false]
    rw [if_neg (by simpa [List.elem_iff] using hm)]
  · intro ha u2 m2
    refine ⟨{ s with history := [] }, by unfold addHistory; simp [ha], ?_⟩
    have ha2 : isAuthenticated { s with history := ([] : List String) } = true := ha
    exact ⟨{ s with history := [] }, by unfold addHistory; simp [ha2]⟩

/-- An authenticated state used by concrete witnesses. -/
def sAuthEx : ClientState :=
  { cookies := [("bl.auth.cookie.oidc", "x")], history := ["[GET] https://u"],
    token := none, username := "user", password := "pass" }

/-- An unauthenticated state with one history entry, used by witnesses. -/
def sUnauthEx : ClientState :=
  { cookies := [("other", "x")], history := ["[GET] https://u"],
    token := none, username := "user", password := "pass" }

/-- Witness for `addHistory_loop_detection`: an authenticated state
resets the history, and an unauthenticated state with the entry
already present raises. -/
theorem addHistory_loop_detection_witness :
    addHistory sAuthEx "https://u" none = Except.ok { sAuthEx with history := [] }
    ∧ (∃ e, addHistory sUnauthEx "https://u" none = Except.error e) := by
  constructor
  · exact (addHistory_loop_detection sAuthEx "https://u" none).2.1 (by decide)
  · exact (addHistory_loop_detection sUnauthEx "https://u" none).1.mpr (by decide)

/-! ## Authentication predicate (C7) -/

/-- C7: `isAuthenticated` is true iff the fixed session-cookie key is
present in `cookies`, and it is a pure function of `cookies` — any two
states agreeing on `cookies` agree on `isAuthenticated`, whatever
their other fields. -/
theorem isAuthenticated_iff_key_and_pure (s : ClientState) :
    (isAuthenticated s = true ↔ ∃ v, ("bl.auth.cookie.oidc", v) ∈ s.cookies)
    ∧ (∀ t : ClientState, s.cookies = t.cookies → isAuthenticated s = isAuthenticated t) := by
  constructor
  · unfold isAuthenticated
    rw [List.any_eq_true]
    constructor
    · rintro ⟨p, hp, he⟩
      exact ⟨p.2, by
        rcases p with ⟨k, v⟩
        simp only [decide_eq_true_eq] at he
        exact he ▸ hp⟩
    · rintro ⟨v, hv⟩
      exact ⟨("bl.auth.cookie.oidc", v), hv, by simp⟩
  · intro t ht
    unfold isAuthenticated
    rw [ht]

/-- Witness for `isAuthenticated_iff_key_and_pure`: the key's presence
decides authentication and the other fields are irrelevant. -/
theorem isAuthenticated_iff_key_and_pure_witness :
    isAuthenticated sAuthEx = true
    ∧ isAuthenticated sAuthEx =
        isAuthenticated { sAuthEx with history := [], token := some [], username := "z" } := by
  constructor
  · exact (isAuthenticated_iff_key_and_pure sAuthEx).1.mpr ⟨"x", by decide⟩
  · exact (isAuthenticated_iff_key_and_pure sAuthEx).2 _ rfl

/-! ## Cookie application (C8) -/

/-- C8 (amended): for every outgoing request whose URL names neither of
the two exempted API hosts, `addCookies` writes the serialized jar to
the `cookie` header, overwriting any prior value; requests to
`users.us1.buildinglink.com` or `api.buildinglink.com` are passed
through unchanged. -/
theorem addCookies_sets_cookie_header (s : ClientState) (url : String) (req : Req) :
    ((containsSubstr url "users.us1.buildinglink.com" ||
        containsSubstr url "api.buildinglink.com") = false →
      addCookies s url req =
        { req with headers := setAssoc req.headers "cookie" (serializeCookies s.cookies) }
      ∧ getAssoc (addCookies s url req).headers "cookie" = some (serializeCookies s.cookies))
    ∧ ((containsSubstr url "users.us1.buildinglink.com" ||
        containsSubstr url "api.buildinglink.com") = true →
      addCookies s url req = req) := by
  constructor
  · intro h
    have he : addCookies s url req =
        { req with headers := setAssoc req.headers "cookie" (serializeCookies s.cookies) } := by
      unfold addCookies
      rw [if_neg (by simp [h])]
    exact ⟨he, by rw [he]; exact getAssoc_setAssoc_self _ _ _⟩
  · intro h
    unfold addCookies
    rw [if_pos (by simp at h ⊢; exact h)]

/-- A request with a stale `cookie` header, used by witnesses. -/
def reqStale : Req := { method := none, headers := [("cookie", "old=1"), ("accept", "a")] }

/-- Witness for `addCookies_sets_cookie_header`: on a portal URL the
jar overwrites the prior `cookie` header; on an API URL the request is
untouched. -/
theorem addCookies_sets_cookie_header_witness :
    getAssoc (addCookies sAuthEx "https://www.buildinglink.com/V2/x" reqStale).headers
      "cookie" = some "bl.auth.cookie.oidc=x"
    ∧ addCookies sAuthEx "https://api.buildinglink.com/v1" reqStale = reqStale := by
  constructor
  · have h := (addCookies_sets_cookie_header sAuthEx
      "https://www.buildinglink.com/V2/x" reqStale).1 (by decide)
    rw [h.2]
    decide
  · exact (addCookies_sets_cookie_header sAuthEx
      "https://api.buildinglink.com/v1" reqStale).2 (by decide)

/-- An empty request and a one-cookie jar for the C8 counterexample. -/
def reqEmpty : Req := { method := none, headers := [] }

/-- A state holding one cookie, for the C8 counterexample. -/
def sJarEx : ClientState :=
  { cookies := [("a", "b")], history := [], token := none,
    username := "user", password := "pass" }

/-- C8 (counterexample): the claim fails for API requests — with a
non-empty jar, `addCookies` on a URL naming `api.buildinglink.com`
returns the request unchanged and sets no `cookie` header at all,
although the claim requires the header to be set to `a=b` on *every*
outgoing request. -/
theorem addCookies_api_counterexample :
    addCookies sJarEx "https://api.buildinglink.com/Test" reqEmpty = reqEmpty
    ∧ getAssoc (addCookies sJarEx "https://api.buildinglink.com/Test" reqEmpty).headers
        "cookie" = none
    ∧ serializeCookies sJarEx.cookies = "a=b" := by
  refine ⟨by decide, by decide, by decide⟩

/-! ## WHATWG `URL` model

Only the operations the source uses: constructing a URL from an
absolute string or from a path-absolute location plus a base,
`searchParams.get`/`searchParams.set` (raw values; percent/plus-coding
of query components is not modelled), and `toString`. Fragments are
not modelled and base URLs are assumed to have the root path (true of
every base the source supplies). -/

/-- Split a character list at the first occurrence of `sub` (non-empty),
returning the parts before and after it, or `none` when absent. -/
def splitAtSub (sub : List Char) : List Char → Option (List Char × List Char)
  | [] => none
  | c :: rest =>
    if sub.isPrefixOf (c :: rest) then some ([], (c :: rest).drop sub.length)
    else (splitAtSub sub rest).map (fun p => (c :: p.1, p.2))

/-- A parsed URL: scheme-and-host origin, pathname, and the raw search
string (without the `?`; `none` when the URL has no `?`). -/
structure ModelURL where
  origin : String
  pathname : String
  search : Option String
deriving DecidableEq, Repr

/-- Characters ending the host portion of an absolute URL. -/
def isHostEnd (c : Char) : Bool :=
  c = '/' || c = '?' || c = '#'

/-- The `scheme://host` origin of an absolute URL string. -/
def originOf (base : String) : String :=
  match splitAtSub "://".data base.data with
  | some (scheme, rest) =>
    String.mk (scheme ++ "://".data ++ rest.takeWhile (fun c => !isHostEnd c))
  | none => base

/-- Split `tail` (the part of a URL after the origin) into pathname and
search; an empty path serializes as `/` (special-scheme URLs). -/
def parsePathSearch (origin : String) (tail : List Char) : ModelURL :=
  let path := tail.takeWhile (fun c => c ≠ '?')
  let rest := tail.drop path.length
  { origin := origin
    pathname := if path = [] then "/" else String.mk path
    search := match rest with
      | [] => none
      | _ :: q => some (String.mk q) }

/-- Model of `new URL(u)` for an absolute `u`. -/
def parseAbs (u : String) : ModelURL :=
  match splitAtSub "://".data u.data with
  | some (scheme, rest) =>
    let host := rest.takeWhile (fun c => !isHostEnd c)
    parsePathSearch (String.mk (scheme ++ "://".data ++ host)) (rest.drop host.length)
  | none => { origin := u, pathname := "", search := none }

/-- Model of `new URL(loc, base)` for a path-absolute `loc` (starting with `/`):
the base contributes only its origin. -/
def parseRel (loc base : String) : ModelURL :=
  parsePathSearch (originOf base) loc.data

/-- Model of JS `String.prototype.startsWith`. -/
def jsStartsWith (s pre : String) : Bool :=
  pre.data.isPrefixOf s.data

/-- Model of `new URL(u, base)`: absolute URLs stand alone; other inputs resolve
against the base, whose path is assumed to be the root. -/
def parseURLModel (u base : String) : ModelURL :=
  if jsStartsWith u "/" then parseRel u base
  else if containsSubstr u "://" then parseAbs u
  else parseRel ("/" ++ u) base

/-- Model of `url.toString()`. -/
def urlToString (u : ModelURL) : String :=
  u.origin ++ u.pathname ++ (match u.search with
    | some q => "?" ++ q
    | none => "")

/-- Model of `application/x-www-form-urlencoded` parsing on raw characters
(`URLSearchParams(init)`): split on `&`, drop empty segments, split
each segment at its first `=` (a segment without `=` gets the empty
value). Percent/plus-decoding is not modelled. -/
def parseQueryChars (l : List Char) : List (List Char × List Char) :=
  ((splitChar '&' l).filter (fun seg => seg ≠ [])).map (fun seg =>
    match splitChar '=' seg with
    | [] => ([], [])
    | k :: rest => (k, joinChar '=' rest))

/-- Model of `URLSearchParams.toString()` on raw characters (no re-encoding). -/
def serializeQueryChars (q : List (List Char × List Char)) : List Char :=
  joinChar '&' (q.map (fun p => p.1 ++ '=' :: p.2))

/-- Model of `URLSearchParams.get(k)`: the value of the first pair named `k`. -/
def firstValC (q : List (List Char × List Char)) (k : List Char) :
    Option (List Char) :=
  (q.find? (fun p => p.1 = k)).map (fun p => p.2)

/-- Model of `URLSearchParams.set(k, v)`: overwrite the first pair named `k` in
place and drop the rest; append when `k` is absent. -/
def qsetChars (q : List (List Char × List Char)) (k v : List Char) :
    List (List Char × List Char) :=
  match q with
  | [] => [(k, v)]
  | p :: t =>
    if p.1 = k then (k, v) :: t.filter (fun r => r.1 ≠ k)
    else p :: qsetChars t k v

/-- Model of `url.searchParams.get(k)`. -/
def searchGet (u : ModelURL) (k : String) : Option String :=
  (firstValC (parseQueryChars (u.search.getD "").data) k.data).map String.mk

/-- Model of `url.searchParams.set(k, v)` (which rewrites `url.search` to the
re-serialized parameter list). -/
def searchSet (u : ModelURL) (k v : String) : ModelURL :=
  { u with search := some (String.mk (serializeQueryChars
      (qsetChars (parseQueryChars (u.search.getD "").data) k.data v.data))) }

/-- The absolute URL `handleRedirects` follows for a relative HTTP
redirect `location`: resolve against the response URL, then — when the
resolved URL carries a non-empty `scope` query parameter — append
`" internal_resident_app_apis"` to that parameter. -/
def httpRedirectTarget (loc base : String) : String :=
  match searchGet (parseRel loc base) "scope" with
  | some s =>
    if s ≠ "" then
      urlToString (searchSet (parseRel loc base) "scope" (s ++ " internal_resident_app_apis"))
    else urlToString (parseRel loc base)
  | none => urlToString (parseRel loc base)

/-! ## Responses and redirect resolution -/

/-- An `input` element of the login form: its `name` and `value`
attributes (the source reads both with a non-null assertion). -/
structure FormInput where
  name : String
  value : String
deriving DecidableEq, Repr

/-- The first `form` element of the materialized document, projected to
what `handleAuthentication` reads: the `action` attribute (`none` when
absent) and the `input` elements. -/
structure FormElt where
  action : Option String
  inputs : List FormInput
deriving DecidableEq, Repr

/-- A `BuildingLinkResponse` projected to the fields the interceptors
read: status, resolved URL, headers (keys stored lowercase, matching
`Headers.get` normalization), raw HTML (`""` models an absent body —
both are falsy where the source tests `response.html`), and the first
form of the parsed document (`none` when the document is absent or has
no form). -/
structure Resp where
  status : Nat
  url : String
  headers : List (String × String)
  html : String
  document : Option FormElt
deriving DecidableEq, Repr

/-- Model of `response.headers.get(k)`. -/
def getHeader (r : Resp) (k : String) : Option String :=
  getAssoc r.headers k

/-- Drop `lit` from the head of `l`; `none` when `lit` is not a prefix. -/
def dropLit : List Char → List Char → Option (List Char)
  | [], l => some l
  | _ :: _, [] => none
  | a :: la, b :: lb => if a = b then dropLit la lb else none

/-- After `="`, the regex requires `https?:\/\/` then captures it
together with the greedy `[^"]+` run (at least one character, up to
the next `"` or the end of input). -/
def matchSchemeAndBody (l : List Char) : Option (List Char) :=
  match dropLit "http".data l with
  | none => none
  | some r1 =>
    match r1 with
    | 's' :: t =>
      (match dropLit "://".data t with
       | some r2 =>
         let body := r2.takeWhile (fun c => c ≠ '"')
         if body = [] then none else some ("https://".data ++ body)
       | none =>
         match dropLit "://".data r1 with
         | some r2 =>
           let body := r2.takeWhile (fun c => c ≠ '"')
           if body = [] then none else some ("http://".data ++ body)
         | none => none)
    | _ =>
      match dropLit "://".data r1 with
      | some r2 =>
        let body := r2.takeWhile (fun c => c ≠ '"')
        if body = [] then none else some ("http://".data ++ body)
      | none => none

/-- The `\s?="` part of the script-redirect regex (optional single
whitespace, then `="`), followed by the captured URL. -/
def matchAfterHref (l : List Char) : Option (List Char) :=
  let matchEqQuote : List Char → Option (List Char) := fun l2 =>
    match l2 with
    | '=' :: '"' :: rest => matchSchemeAndBody rest
    | _ => none
  match l with
  | c :: rest => if isJsSpace c then matchEqQuote rest else matchEqQuote l
  | [] => none

/-- Leftmost match of the script-redirect regex
`window\.top\.location\.href\s?="(https?:\/\/[^"]+)`, returning the
captured group. -/
def scanScript : List Char → Option (List Char)
  | [] => none
  | c :: rest =>
    match (dropLit ("window.top.location.href".data) (c :: rest)).bind matchAfterHref with
    | some u => some u
    | none => scanScript rest

/-- Model of `response.html.match(/window\.top\.location\.href\s?="(https?:\/\/[^"]+)/)`,
projected to the captured URL. -/
def findScriptRedirect (html : String) : Option String :=
  (scanScript html.data).map String.mk

/-- Model of `handleRedirects(response)`, with the recursive `this.fetch`
abstracted as `oracle`. Returns the final response together with the
list of URLs fetched, in order; `none` models the `TypeError` raised
when a redirect status arrives without a `location` header
(`response.headers.get("location")!`). -/
def handleRedirects (oracle : String → Resp) (r : Resp) :
    Option (Resp × List String) :=
  let step1 : Option (Resp × List String) :=
    if r.status = 301 ∨ r.status = 302 ∨ r.status = 307 then
      match getHeader r "location" with
      | none => none
      | some loc =>
        let target := if jsStartsWith loc "/" then httpRedirectTarget loc r.url else loc
        some (oracle target, [target])
    else
      some (r, [])
  match step1 with
  | none => none
  | some (r1, calls) =>
    if r1.html ≠ "" then
      match findScriptRedirect r1.html with
      | some u => some (oracle u, calls ++ [u])
      | none => some (r1, calls)
    else
      some (r1, calls)

/-- C3: for a 301/302/307 response with a relative `location`, the
resolver resolves it against the response URL, re-invokes the pipeline
exactly once — on exactly the resolved URL — and returns that call's
result in place of the original response (stated for follow-up
responses that trigger no further script redirect, the case the claim
describes). -/
theorem http_redirect_resolution (oracle : String → Resp) (r : Resp) (loc : String)
    (hst : r.status = 301 ∨ r.status = 302 ∨ r.status = 307)
    (hloc : getHeader r "location" = some loc)
    (hrel : jsStartsWith loc "/" = true)
    (hns : findScriptRedirect (oracle (httpRedirectTarget loc r.url)).html = none) :
    handleRedirects oracle r =
      some (oracle (httpRedirectTarget loc r.url), [httpRedirectTarget loc r.url]) := by
  unfold handleRedirects
  rw [if_pos hst, hloc]
  simp only [hrel, if_true]
  by_cases hh : (oracle (httpRedirectTarget loc r.url)).html ≠ ""
  · simp only [if_pos hh, hns]
  · simp only [if_neg hh]

/-- The pipeline oracle used by concrete witnesses: a plain 200
response with no body. -/
def oracleEx : String → Resp :=
  fun u => { status := 200, url := u, headers := [], html := "", document := none }

/-- A 302 response with `location: /redirected`, resolved URL
`https://host/original`. -/
def rRedirectEx : Resp :=
  { status := 302, url := "https://host/original",
    headers := [("location", "/redirected")], html := "", document := none }

/-- Witness for `http_redirect_resolution`: the spec's example — a 302
with `location: /redirected` against `https://host/original` issues
exactly one follow-up request, to `https://host/redirected`. -/
theorem http_redirect_resolution_witness :
    handleRedirects oracleEx rRedirectEx =
      some (oracleEx "https://host/redirected", ["https://host/redirected"]) := by
  have ht : httpRedirectTarget "/redirected" rRedirectEx.url = "https://host/redirected" := by
    decide
  have h := http_redirect_resolution oracleEx rRedirectEx "/redirected"
    (Or.inr (Or.inl rfl)) (by decide) (by decide) rfl
  rw [ht] at h
  exact h

/-- C4: for a response that is not an HTTP redirect, the resolver scans
the raw HTML for the script-redirect pattern; a match re-invokes the
pipeline exactly once on the captured URL and returns its result,
while a body with no match — and a response with no materialized
HTML — issues no follow-up. -/
theorem script_redirect_resolution (oracle : String → Resp) (r : Resp)
    (hst : ¬(r.status = 301 ∨ r.status = 302 ∨ r.status = 307)) :
    (∀ u, findScriptRedirect r.html = some u →
      handleRedirects oracle r = some (oracle u, [u]))
    ∧ (findScriptRedirect r.html = none → handleRedirects oracle r = some (r, []))
    ∧ (r.html = "" → handleRedirects oracle r = some (r, [])) := by
  refine ⟨?_, ?_, ?_⟩
  · intro u hu
    have hh : r.html ≠ "" := by
      intro he
      rw [he] at hu
      simp [findScriptRedirect, scanScript] at hu
    unfold handleRedirects
    rw [if_neg hst]
    simp only [if_pos hh, hu, List.nil_append]
  · intro hn
    unfold handleRedirects
    rw [if_neg hst]
    by_cases hh : r.html ≠ ""
    · simp only [if_pos hh, hn]
    · simp only [if_neg hh]
  · intro he
    unfold handleRedirects
    rw [if_neg hst]
    simp [he]

/-- A 200 response whose HTML carries the script-redirect assignment
to `https://host/dashboard`. -/
def rScriptEx : Resp :=
  { status := 200, url := "https://host/page", headers := [],
    html := "<script>window.top.location.href=\"https://host/dashboard\";</script>",
    document := none }

/-- Witness for `script_redirect_resolution`: the spec's example — an
HTML body containing `window.top.location.href="https://host/dashboard"`
issues exactly one follow-up request to that literal URL, and a body
with no such assignment issues none. -/
theorem script_redirect_resolution_witness :
    handleRedirects oracleEx rScriptEx =
      some (oracleEx "https://host/dashboard", ["https://host/dashboard"])
    ∧ handleRedirects oracleEx (oracleEx "https://x/y") =
      some (oracleEx "https://x/y", []) := by
  constructor
  · exact (script_redirect_resolution oracleEx rScriptEx (by decide)).1
      "https://host/dashboard" (by decide)
  · exact (script_redirect_resolution oracleEx (oracleEx "https://x/y") (by decide)).2.2 rfl

/-! ## Query-parameter lemmas (for the scope rewrite, C10) -/

/-- Well-formedness of a parsed query pair: the key contains neither
separator, the value contains no `&`. Every pair produced by
`parseQueryChars` has this shape, and it makes parse a left inverse of
serialize. -/
def qwf (p : List Char × List Char) : Prop :=
  '&' ∉ p.1 ∧ '=' ∉ p.1 ∧ '&' ∉ p.2

theorem mem_joinChar_head {sep : Char} {k : List Char} {rest : List (List Char)}
    {x : Char} (hx : x ∈ k) : x ∈ joinChar sep (k :: rest) := by
  cases rest with
  | nil => simpa [joinChar] using hx
  | cons y r => simp [joinChar, hx]

theorem mem_joinChar_tail {sep : Char} {k : List Char} {rest : List (List Char)}
    {x : Char} (hx : x ∈ joinChar sep rest) : x ∈ joinChar sep (k :: rest) := by
  cases rest with
  | nil => simp [joinChar] at hx
  | cons y r => simp [joinChar]; right; right; exact hx

theorem parseQueryChars_wf (l : List Char) : ∀ p ∈ parseQueryChars l, qwf p := by
  intro p hp
  unfold parseQueryChars at hp
  rcases List.mem_map.mp hp with ⟨seg, hseg, hpe⟩
  have hseg2 : seg ∈ splitChar '&' l := (List.mem_filter.mp hseg).1
  have hamp : '&' ∉ seg := mem_splitChar_not_mem seg hseg2
  rcases hsp : splitChar '=' seg with _ | ⟨k, rest⟩
  · exact absurd hsp (splitChar_ne_nil '=' seg)
  · rw [hsp] at hpe
    have hjoin : joinChar '=' (k :: rest) = seg := hsp ▸ joinChar_splitChar '=' seg
    have hkeq : '=' ∉ k := mem_splitChar_not_mem k (hsp ▸ List.mem_cons_self _ _)
    have hkamp : '&' ∉ k := fun hx => hamp (hjoin ▸ mem_joinChar_head hx)
    have hvamp : '&' ∉ joinChar '=' rest := fun hx => hamp (hjoin ▸ mem_joinChar_tail hx)
    rw [← hpe]
    exact ⟨hkamp, hkeq, hvamp⟩

theorem parseQueryChars_serializeQueryChars (q : List (List Char × List Char))
    (h : ∀ p ∈ q, qwf p) : parseQueryChars (serializeQueryChars q) = q := by
  rcases hq : q with _ | ⟨p0, t0⟩
  · decide
  · rw [← hq]
    have hq2 : q ≠ [] := by rw [hq]; simp
    unfold serializeQueryChars parseQueryChars
    have hsegs : ∀ s ∈ q.map (fun p => p.1 ++ '=' :: p.2), '&' ∉ s := by
      intro s hs
      rcases List.mem_map.mp hs with ⟨p, hp, hpe⟩
      rcases h p hp with ⟨h1, _, h3⟩
      rw [← hpe]
      intro hmem
      rcases List.mem_append.mp hmem with hm | hm
      · exact h1 hm
      · rcases List.mem_cons.mp hm with hm | hm
        · exact absurd hm (by decide)
        · exact h3 hm
    rw [splitChar_joinChar (by simpa using hq2) hsegs]
    have hfil : (q.map (fun p => p.1 ++ '=' :: p.2)).filter (fun seg => seg ≠ []) =
        q.map (fun p => p.1 ++ '=' :: p.2) := by
      apply List.filter_eq_self.mpr
      intro s hs
      rcases List.mem_map.mp hs with ⟨p, _, hpe⟩
      rw [← hpe]
      simp
    rw [hfil, List.map_map]
    have hpt : ∀ p ∈ q, (fun seg =>
        match splitChar '=' seg with
        | [] => (([] : List Char), ([] : List Char))
        | k :: rest => (k, joinChar '=' rest)) ((fun p => p.1 ++ '=' :: p.2) p) = p := by
      intro p hp
      rcases h p hp with ⟨_, h2, _⟩
      simp only [Function.comp]
      rw [splitChar_append _ h2]
      show (p.1, joinChar '=' (splitChar '=' p.2)) = p
      rw [joinChar_splitChar]
    calc q.map _ = q.map id := List.map_congr_left hpt
    _ = q := List.map_id q

theorem firstValC_qsetChars (q : List (List Char × List Char)) (k v : List Char) :
    firstValC (qsetChars q k v) k = some v := by
  induction q with
  | nil => simp [qsetChars, firstValC]
  | cons p t ih =>
    unfold qsetChars
    by_cases hp : p.1 = k
    · simp [firstValC, hp]
    · simp only [if_neg hp, firstValC, List.find?_cons, decide_eq_false hp]
      exact ih

theorem qsetChars_wf {q : List (List Char × List Char)} {k v : List Char}
    (hq : ∀ p ∈ q, qwf p) (hk : '&' ∉ k ∧ '=' ∉ k) (hv : '&' ∉ v) :
    ∀ p ∈ qsetChars q k v, qwf p := by
  induction q with
  | nil =>
    intro p hp
    simp only [qsetChars, List.mem_singleton] at hp
    exact hp ▸ ⟨hk.1, hk.2, hv⟩
  | cons p0 t ih =>
    intro p hp
    unfold qsetChars at hp
    by_cases h0 : p0.1 = k
    · rw [if_pos h0] at hp
      rcases List.mem_cons.mp hp with h | h
      · exact h ▸ ⟨hk.1, hk.2, hv⟩
      · exact hq _ (List.mem_cons_of_mem _ (List.mem_of_mem_filter h))
    · rw [if_neg h0] at hp
      rcases List.mem_cons.mp hp with h | h
      · exact h ▸ hq p0 (List.mem_cons_self _ _)
      · exact ih (fun r hr => hq r (List.mem_cons_of_mem _ hr)) p h

theorem firstValC_wf {q : List (List Char × List Char)} {k v : List Char}
    (hq : ∀ p ∈ q, qwf p) (h : firstValC q k = some v) : '&' ∉ v := by
  unfold firstValC at h
  rcases hf : q.find? (fun p => p.1 = k) with _ | p
  · rw [hf] at h; cases h
  · rw [hf] at h
    have hv : p.2 = v := by simpa using h
    exact hv ▸ (hq p (List.mem_of_find?_eq_some hf)).2.2

theorem str_append_cancel_left {a b c : String} (h : a ++ b = a ++ c) : b = c := by
  have hd := congrArg String.data h
  rw [String.data_append, String.data_append] at hd
  exact String.ext (List.append_cancel_left hd)

theorem searchGet_eq_firstValC {u : ModelURL} {k s : String}
    (hs : searchGet u k = some s) :
    firstValC (parseQueryChars (u.search.getD "").data) k.data = some s.data := by
  unfold searchGet at hs
  rcases hf : firstValC (parseQueryChars (u.search.getD "").data) k.data with _ | l
  · rw [hf] at hs; cases hs
  · rw [hf] at hs
    have : String.mk l = s := by simpa using hs
    rw [← this]

/-- Setting the `scope` parameter to a strictly different value changes
the serialized URL, and reads back as the new value. -/
theorem searchSet_scope_changes (u : ModelURL) (s : String)
    (hs : searchGet u "scope" = some s) :
    searchGet (searchSet u "scope" (s ++ " internal_resident_app_apis")) "scope" =
      some (s ++ " internal_resident_app_apis")
    ∧ urlToString (searchSet u "scope" (s ++ " internal_resident_app_apis")) ≠
        urlToString u := by
  have hfv := searchGet_eq_firstValC hs
  have hqwf := parseQueryChars_wf (u.search.getD "").data
  have hk : '&' ∉ "scope".data ∧ '=' ∉ "scope".data := by decide
  have hvamp : '&' ∉ (s ++ " internal_resident_app_apis").data := by
    rw [String.data_append]
    intro hmem
    rcases List.mem_append.mp hmem with hm | hm
    · exact firstValC_wf hqwf hfv hm
    · exact absurd hm (by decide)
  have hwfset := qsetChars_wf hqwf hk hvamp
  have hround := parseQueryChars_serializeQueryChars _ hwfset
  constructor
  · unfold searchSet searchGet
    simp only [Option.getD_some]
    show (firstValC (parseQueryChars (serializeQueryChars _)) _).map _ = _
    rw [hround, firstValC_qsetChars]
    rfl
  · intro heq
    rcases husearch : u.search with _ | raw
    · have hnone : searchGet u "scope" = none := by
        unfold searchGet
        rw [husearch]
        rfl
      rw [hnone] at hs
      cases hs
    · have hser : urlToString (searchSet u "scope" (s ++ " internal_resident_app_apis")) =
          u.origin ++ u.pathname ++ ("?" ++ String.mk (serializeQueryChars
            (qsetChars (parseQueryChars (u.search.getD "").data) "scope".data
              (s ++ " internal_resident_app_apis").data))) := rfl
      have hu : urlToString u = u.origin ++ u.pathname ++ ("?" ++ raw) := by
        unfold urlToString
        rw [husearch]
      rw [hser, hu] at heq
      have h1 := str_append_cancel_left heq
      have hcore := str_append_cancel_left h1
      have hdat : serializeQueryChars (qsetChars (parseQueryChars (u.search.getD "").data)
          "scope".data (s ++ " internal_resident_app_apis").data) = raw.data :=
        congrArg String.data hcore
      have hparse := congrArg parseQueryChars hdat
      rw [hround] at hparse
      have hq2 : parseQueryChars raw.data =
          parseQueryChars (u.search.getD "").data := by
        rw [husearch]
        rfl
      rw [hq2] at hparse
      have hfv2 : firstValC (qsetChars (parseQueryChars (u.search.getD "").data)
          "scope".data (s ++ " internal_resident_app_apis").data) "scope".data =
          some s.data := by
        rw [hparse]
        exact hfv
      rw [firstValC_qsetChars] at hfv2
      have hlen := congrArg List.length (Option.some.inj hfv2)
      rw [String.data_append, List.length_append] at hlen
      have : (" internal_resident_app_apis".data).length = 0 := by omega
      exact absurd this (by decide)

/-- C10 (amended): when the resolution of a relative redirect location
carries a *non-empty* `scope` query parameter, the follow-up URL is
the resolution with that parameter rewritten to the original scope
followed by `" internal_resident_app_apis"` — hence not the verbatim
resolution; a location without a `scope` parameter, or with an empty
one, is followed verbatim. -/
theorem scope_rewrite_on_relative_redirect (loc base : String) :
    (∀ s : String, searchGet (parseRel loc base) "scope" = some s → s ≠ "" →
      httpRedirectTarget loc base =
        urlToString (searchSet (parseRel loc base) "scope"
          (s ++ " internal_resident_app_apis"))
      ∧ searchGet (searchSet (parseRel loc base) "scope"
          (s ++ " internal_resident_app_apis")) "scope" =
          some (s ++ " internal_resident_app_apis")
      ∧ httpRedirectTarget loc base ≠ urlToString (parseRel loc base))
    ∧ (searchGet (parseRel loc base) "scope" = none →
        httpRedirectTarget loc base = urlToString (parseRel loc base))
    ∧ (searchGet (parseRel loc base) "scope" = some "" →
        httpRedirectTarget loc base = urlToString (parseRel loc base)) := by
  refine ⟨?_, ?_, ?_⟩
  · intro s hs hne
    have hchg := searchSet_scope_changes (parseRel loc base) s hs
    have h1 : httpRedirectTarget loc base =
        urlToString (searchSet (parseRel loc base) "scope"
          (s ++ " internal_resident_app_apis")) := by
      unfold httpRedirectTarget
      rw [hs]
      simp [hne]
    exact ⟨h1, hchg.1, by rw [h1]; exact hchg.2⟩
  · intro hn
    unfold httpRedirectTarget
    rw [hn]
  · intro he
    unfold httpRedirectTarget
    rw [he]
    simp

/-- Witness for `scope_rewrite_on_relative_redirect`: resolving
`/connect?scope=openid` rewrites the scope parameter and yields a URL
different from the verbatim resolution. -/
theorem scope_rewrite_on_relative_redirect_witness :
    httpRedirectTarget "/connect?scope=openid" "https://host/x" =
      "https://host/connect?scope=openid internal_resident_app_apis"
    ∧ httpRedirectTarget "/connect?scope=openid" "https://host/x" ≠
        urlToString (parseRel "/connect?scope=openid" "https://host/x") := by
  have h := (scope_rewrite_on_relative_redirect "/connect?scope=openid" "https://host/x").1
    "openid" (by decide) (by decide)
  exact ⟨by rw [h.1]; decide, h.2.2⟩

/-- A 302 response whose relative location carries an *empty* `scope`
parameter. -/
def rScopeEmptyEx : Resp :=
  { status := 302, url := "https://host/a",
    headers := [("location", "/cb?scope=")], html := "", document := none }

/-- C10 (counterexample): the claim fails as stated for an empty
`scope` parameter — the resolved URL `https://host/cb?scope=` *carries*
a `scope` query parameter, yet the resolver follows it verbatim
(JS `if (scope)` is false for the empty string), with no
`internal_resident_app_apis` rewrite. -/
theorem scope_empty_not_rewritten_counterexample :
    searchGet (parseRel "/cb?scope=" "https://host/a") "scope" = some ""
    ∧ handleRedirects oracleEx rScopeEmptyEx =
        some (oracleEx "https://host/cb?scope=", ["https://host/cb?scope="])
    ∧ containsSubstr "https://host/cb?scope=" "internal_resident_app_apis" = false := by
  refine ⟨by decide, by decide, by decide⟩

/-! ## Base-URL resolution (C9) -/

/-- Module constant `BUILDINGLINK_BASE_URL`. -/
def BUILDINGLINK_BASE_URL : String := "https://www.buildinglink.com"

/-- The constructor-relevant slice of `BuildingLinkOptions` (the API
keys play no part in URL resolution and are omitted). -/
structure BLOptions where
  username : String
  password : String
  baseUrl : Option String
deriving DecidableEq, Repr

/-- The constructor's defaulting
`this.options = { baseUrl: BUILDINGLINK_BASE_URL, ...options }`. -/
def mkClientOptions (o : BLOptions) : BLOptions :=
  { o with baseUrl := some (o.baseUrl.getD BUILDINGLINK_BASE_URL) }

/-- Model of `fetch`'s URL resolution,
`url = new URL(url, BUILDINGLINK_BASE_URL).toString()`.
The source resolves against the module constant — it takes no input
from `this.options`, which is why this definition has no options
parameter. -/
def resolveFetchUrl (u : String) : String :=
  urlToString (parseURLModel u BUILDINGLINK_BASE_URL)

/-- Constructor input carrying a baseUrl override. -/
def oOverrideEx : BLOptions :=
  { username := "u", password := "p", baseUrl := some "https://test.example.com" }

/-- C9 (code bug evidence): a client constructed with the baseUrl
override `https://test.example.com` stores that override in its
options, yet `fetch` resolves the relative location `/path` to
`https://www.buildinglink.com/path` — the production origin — because
the resolution reads the module constant and never consults
`this.options.baseUrl`. -/
theorem fetch_ignores_configured_baseUrl :
    (mkClientOptions oOverrideEx).baseUrl = some "https://test.example.com"
    ∧ resolveFetchUrl "/path" = "https://www.buildinglink.com/path"
    ∧ resolveFetchUrl "/path" ≠ "https://test.example.com/path" := by
  refine ⟨by decide, by decide, by decide⟩

/-! ## Authentication interceptor (C5, C6) -/

/-- The submission target:
`form?.getAttribute("action") || response.url` (an absent form, absent
attribute, or empty attribute value all fall back to the response's
resolved URL). -/
def resolveAction (r : Resp) : String :=
  match r.document with
  | some f =>
    match f.action with
    | some a => if a = "" then r.url else a
    | none => r.url
  | none => r.url

/-- The form's input elements (empty when the document has no form). -/
def inputsOf (r : Resp) : List FormInput :=
  match r.document with
  | some f => f.inputs
  | none => []

/-- The submission payload: every input's `value` attribute, with the
fields named `Username` and `Password` overridden by the configured
credentials; later duplicates overwrite earlier ones, as JS property
assignment does. -/
def buildFormData (username password : String) (inputs : List FormInput) :
    List (String × String) :=
  inputs.foldl (fun fd i =>
    setAssoc fd i.name
      (if i.name = "Username" then username
       else if i.name = "Password" then password
       else i.value)) []

/-- The session state at the moment the login form is submitted: when
the resolved action contains `"oidc"`, the token has already been set
to the entire built payload (`this.token = formData` precedes the
`fetch`). -/
def preSubmitState (s : ClientState) (r : Resp) : ClientState :=
  if containsSubstr (resolveAction r) "oidc" then
    { s with token := some (buildFormData s.username s.password (inputsOf r)) }
  else s

/-- Line terminators excluded by the `.` of a JS regex. -/
def isLineTerm (c : Char) : Bool :=
  c = '\n' || c = '\r' || c.toNat = 8232 || c.toNat = 8233

/-- The lazy `(.*?)<\/div>` continuation: the shortest run of
non-line-terminator characters followed by the literal `</div>`. -/
def takeUntilClose : List Char → Option (List Char)
  | [] => none
  | c :: rest =>
    if (dropLit ("</div>".data) (c :: rest)).isSome then some []
    else if isLineTerm c then none
    else (takeUntilClose rest).map (fun l => c :: l)

/-- Leftmost match of
`/<div class="validation-summary-errors">(.*?)<\/div>/`, returning the
captured group. -/
def scanValidation : List Char → Option (List Char)
  | [] => none
  | c :: rest =>
    match dropLit ("<div class=\"validation-summary-errors\">".data) (c :: rest) with
    | some after =>
      (match takeUntilClose after with
       | some content => some content
       | none => scanValidation rest)
    | none => scanValidation rest

/-- Model of `html.match(/<div class="validation-summary-errors">(.*?)<\/div>/)?.[1]`. -/
def validationMessage (html : String) : Option String :=
  (scanValidation html.data).map String.mk

/-- JS template interpolation of a possibly-`undefined` value: an
absent capture renders as the literal `undefined`. -/
def undefinedOr : Option String → String
  | some m => m
  | none => "undefined"

/-- Model of `handleAuthentication(response)`, with the recursive
`this.fetch(action, {method: "POST", ...})` abstracted as `submit`,
which receives the session state as of the moment of the call (hence
`preSubmitState`), the target, and the URL-encoded payload. Returns
the interceptor's outcome (`Except.error` models the thrown login
failure), the final session state, and the list of submissions made. -/
def handleAuthentication
    (submit : ClientState → String → List (String × String) → Resp)
    (s : ClientState) (r : Resp) :
    Except String Resp × ClientState ×
      List (ClientState × String × List (String × String)) :=
  if isAuthenticated s then (Except.ok r, s, [])
  else if (submit (preSubmitState s r) (resolveAction r)
      (buildFormData s.username s.password (inputsOf r))).status ≠ 200 then
    (Except.error ("Failed to login: " ++ undefinedOr (validationMessage
        (submit (preSubmitState s r) (resolveAction r)
          (buildFormData s.username s.password (inputsOf r))).html)),
     preSubmitState s r,
     [(preSubmitState s r, resolveAction r,
       buildFormData s.username s.password (inputsOf r))])
  else
    (Except.ok (submit (preSubmitState s r) (resolveAction r)
        (buildFormData s.username s.password (inputsOf r))),
     preSubmitState s r,
     [(preSubmitState s r, resolveAction r,
       buildFormData s.username s.password (inputsOf r))])

/-- C5: when the unauthenticated interceptor resolves a submission
target containing `"oidc"`, the session token is set to the entire
built payload before the POST is issued — every submission call
receives a state whose token is already that payload — and the final
state keeps that token for *every* possible submission outcome,
failures included. -/
theorem oidc_token_captured_before_submit
    (submit : ClientState → String → List (String × String) → Resp)
    (s : ClientState) (r : Resp)
    (hun : isAuthenticated s = false)
    (hoidc : containsSubstr (resolveAction r) "oidc" = true) :
    (handleAuthentication submit s r).2.1.token =
      some (buildFormData s.username s.password (inputsOf r))
    ∧ ∀ c ∈ (handleAuthentication submit s r).2.2,
        c.1.token = some (buildFormData s.username s.password (inputsOf r)) := by
  have hps : (preSubmitState s r).token =
      some (buildFormData s.username s.password (inputsOf r)) := by
    unfold preSubmitState
    rw [if_pos hoidc]
  unfold handleAuthentication
  rw [if_neg (by simp [hun])]
  constructor
  · split
    · exact hps
    · exact hps
  · split
    · intro c hc
      have : c = (preSubmitState s r, resolveAction r,
          buildFormData s.username s.password (inputsOf r)) := by simpa using hc
      rw [this]
      exact hps
    · intro c hc
      have : c = (preSubmitState s r, resolveAction r,
          buildFormData s.username s.password (inputsOf r)) := by simpa using hc
      rw [this]
      exact hps

/-- A login form posting to an OIDC target and echoing an
authorization code. -/
def formOidcEx : FormElt :=
  { action := some "/signin-oidc"
    inputs := [⟨"code", "abc"⟩, ⟨"Username", ""⟩, ⟨"Password", ""⟩] }

/-- An unauthenticated response carrying `formOidcEx`. -/
def rFormOidcEx : Resp :=
  { status := 200, url := "https://host/login", headers := [], html := "",
    document := some formOidcEx }

/-- A submission oracle that always fails with a bare 500. -/
def submitFail : ClientState → String → List (String × String) → Resp :=
  fun _ _ _ => { status := 500, url := "", headers := [], html := "", document := none }

/-- Witness for `oidc_token_captured_before_submit`: with a failing
submission, the token still ends up holding the full payload, with
`Username`/`Password` overridden by the configured credentials. -/
theorem oidc_token_captured_before_submit_witness :
    (handleAuthentication submitFail sUnauthEx rFormOidcEx).2.1.token =
      some [("code", "abc"), ("Username", "user"), ("Password", "pass")] := by
  have h := oidc_token_captured_before_submit submitFail sUnauthEx rFormOidcEx
    (by decide) (by decide)
  exact h.1.trans (by decide)

/-- C6: an unauthenticated interceptor whose login submission comes
back with a non-200 status throws — no response reaches the caller —
and the failure message embeds the content of the first
`validation-summary-errors` block of the submission response's body
when one exists, and renders the JS `undefined` when none does. -/
theorem login_rejection
    (submit : ClientState → String → List (String × String) → Resp)
    (s : ClientState) (r : Resp)
    (hun : isAuthenticated s = false)
    (hfail : (submit (preSubmitState s r) (resolveAction r)
        (buildFormData s.username s.password (inputsOf r))).status ≠ 200) :
    (handleAuthentication submit s r).1 =
      Except.error ("Failed to login: " ++ undefinedOr (validationMessage
        (submit (preSubmitState s r) (resolveAction r)
          (buildFormData s.username s.password (inputsOf r))).html))
    ∧ (∀ m, validationMessage (submit (preSubmitState s r) (resolveAction r)
          (buildFormData s.username s.password (inputsOf r))).html = some m →
        (handleAuthentication submit s r).1 =
          Except.error ("Failed to login: " ++ m))
    ∧ (validationMessage (submit (preSubmitState s r) (resolveAction r)
          (buildFormData s.username s.password (inputsOf r))).html = none →
        (handleAuthentication submit s r).1 =
          Except.error "Failed to login: undefined") := by
  have hmain : (handleAuthentication submit s r).1 =
      Except.error ("Failed to login: " ++ undefinedOr (validationMessage
        (submit (preSubmitState s r) (resolveAction r)
          (buildFormData s.username s.password (inputsOf r))).html)) := by
    unfold handleAuthentication
    rw [if_neg (by simp [hun]), if_pos hfail]
  refine ⟨hmain, ?_, ?_⟩
  · intro m hm
    rw [hmain, hm]
    rfl
  · intro hm
    rw [hmain, hm]
    rfl

/-- A submission oracle answering 400 with a validation-summary error
block. -/
def submit400 : ClientState → String → List (String × String) → Resp :=
  fun _ _ _ =>
    { status := 400, url := "", headers := [],
      html := "<div class=\"validation-summary-errors\">Invalid credentials</div>",
      document := none }

/-- Witness for `login_rejection`: the spec's example — a 400
submission response carrying the block `Invalid credentials` makes the
operation fail with exactly that message embedded. -/
theorem login_rejection_witness :
    (handleAuthentication submit400 sUnauthEx rFormOidcEx).1 =
      Except.error "Failed to login: Invalid credentials" := by
  have h := login_rejection submit400 sUnauthEx rFormOidcEx (by decide) (by decide)
  rw [h.1]
  exact congrArg Except.error (by decide)

end BL
